import Mathlib

/-!
A shallow embedding of the compilation-unit builder, the indexer helpers and
the first-class function value of the `rune` repository, together with proofs
of the specified properties.

Conventions of the embedding:
* Rust `HashMap<K, V>` is modelled as an association list `List (K × V)`:
  `alistFind?` is `get`, `alistInsert` is `insert` (returning the previous
  value, as Rust's `insert` does).  Iteration order of the model is insertion
  order, a fixed order consistent with iterating one concrete map instance.
* Methods taking `&mut self` become functions returning the result paired
  with the updated state, so mutations performed before an early `return Err`
  are preserved, exactly as in the source.
* 64-bit hashes are modelled as `Nat` produced by explicit hash-function
  parameters (the hashing module is outside the embedded sources; the spec
  only requires determinism, which any Lean function has).
-/

set_option autoImplicit false

namespace Rune

/-- Lookup in an association list, first binding wins (model of
`HashMap::get`). -/
def alistFind? {K V : Type} [DecidableEq K] (m : List (K × V)) (k : K) : Option V :=
  match m with
  | [] => none
  | (k₁, v₁) :: rest => if k₁ = k then some v₁ else alistFind? rest k

/-- Insert into an association list, replacing an existing binding in place
and returning the previous value (model of `HashMap::insert`). -/
def alistInsert {K V : Type} [DecidableEq K] (m : List (K × V)) (k : K) (v : V) :
    List (K × V) × Option V :=
  match m with
  | [] => ([(k, v)], none)
  | (k₁, v₁) :: rest =>
    if k₁ = k then ((k, v) :: rest, some v₁)
    else
      let r := alistInsert rest k v
      ((k₁, v₁) :: r.1, r.2)

/-- Model of `HashMap::extend`: insert every binding of `other`, replacing
existing ones. -/
def alistExtend {K V : Type} [DecidableEq K] (m : List (K × V)) (other : List (K × V)) :
    List (K × V) :=
  other.foldl (fun acc p => (alistInsert acc p.1 p.2).1) m

/-- Model of `map.entry(k).or_default().push(v)` for `Map<K, Vec<V>>`. -/
def alistPushEntry {K V : Type} [DecidableEq K] (m : List (K × V)) (k : K) (d : V)
    (f : V → V) : List (K × V) :=
  match m with
  | [] => [(k, f d)]
  | (k₁, v₁) :: rest =>
    if k₁ = k then (k₁, f v₁) :: rest
    else (k₁, v₁) :: alistPushEntry rest k d f

/-- `Span` from `crates/stk/src/unit.rs`: byte range in the source
(the Rust field `end` is spelled `stop` here because `end` is reserved). -/
structure Span where
  start : Nat
  stop : Nat
  deriving DecidableEq, Repr

/-- `Label` from `crates/stk/src/unit.rs`: a named jump target with a unique
numeric identifier. -/
structure Label where
  name : String
  ident : Nat
  deriving DecidableEq, Repr

/-- The `Display` rendering of a label: `"<name>_<ident>"`. -/
def Label.display (l : Label) : String :=
  l.name ++ "_" ++ toString l.ident

/-- `Item` from the stk context: a canonical path of string components. -/
abbrev Item := List String

/-- The subset of `Inst` (from the stk vm) that `unit.rs` inspects: the three
raw jumps produced by lowering, `Call` (which contributes required
functions), and a catch-all case for every other instruction. -/
inductive Inst where
  | jump (offset : Int)
  | jumpIf (offset : Int)
  | jumpIfNot (offset : Int)
  | call (hash : Nat) (args : Nat)
  | other (code : Nat)
  deriving DecidableEq, Repr

/-- `UnitFnSignature` from `crates/stk/src/unit.rs`. -/
structure UnitFnSignature where
  path : Item
  args : Nat
  deriving DecidableEq, Repr

/-- `UnitFnInfo` from `crates/stk/src/unit.rs`. -/
structure UnitFnInfo where
  offset : Nat
  signature : UnitFnSignature
  deriving DecidableEq, Repr

/-- `DebugInfo` from `crates/stk/src/unit.rs`. -/
structure DebugInfo where
  span : Span
  comment : Option String
  label : Option Label
  deriving DecidableEq, Repr

/-- `CompilationUnitError` from `crates/stk/src/unit.rs`. -/
inductive CompilationUnitError where
  | functionConflict (existing : UnitFnSignature)
  | importConflict (existing : Item)
  | staticStringMissing (hash : Nat) (slot : Nat)
  | staticStringHashConflict (hash : Nat) (current : String) (existing : String)
  | staticObjectKeysMissing (hash : Nat) (slot : Nat)
  | staticObjectKeysHashConflict (hash : Nat) (current : List String) (existing : List String)
  | duplicateLabel (label : Label)
  | missingLabel (label : Label)
  deriving DecidableEq, Repr

/-- `AssemblyInst` from `crates/stk/src/unit.rs`: raw instruction or symbolic
jump. -/
inductive AssemblyInst where
  | jump (label : Label)
  | jumpIf (label : Label)
  | jumpIfNot (label : Label)
  | raw (raw : Inst)
  deriving DecidableEq, Repr

/-- `Assembly` from `crates/stk/src/unit.rs`. -/
structure Assembly where
  labels : List (Label × Nat) := []
  labelsRev : List (Nat × Label) := []
  instructions : List (AssemblyInst × Span) := []
  labelCount : Nat := 0
  requiredFunctions : List (Nat × List Span) := []
  deriving DecidableEq, Repr

/-- `Assembly::new_label`. -/
def Assembly.newLabel (a : Assembly) (name : String) : Label × Assembly :=
  (⟨name, a.labelCount⟩, { a with labelCount := a.labelCount + 1 })

/-- `Assembly::label`: apply the label at the current instruction offset.
As in the source, the label map is updated before the duplicate check, so on
`DuplicateLabel` the map already holds the new offset while `labels_rev` is
left untouched. -/
def Assembly.applyLabel (a : Assembly) (l : Label) :
    Except CompilationUnitError Label × Assembly :=
  let offset := a.instructions.length
  let r := alistInsert a.labels l offset
  match r.2 with
  | some _ => (.error (.duplicateLabel l), { a with labels := r.1 })
  | none =>
    (.ok l, { a with labels := r.1, labelsRev := (alistInsert a.labelsRev offset l).1 })

/-- `Assembly::jump`. -/
def Assembly.jump (a : Assembly) (l : Label) (span : Span) : Assembly :=
  { a with instructions := a.instructions ++ [(.jump l, span)] }

/-- `Assembly::jump_if`. -/
def Assembly.jumpIf (a : Assembly) (l : Label) (span : Span) : Assembly :=
  { a with instructions := a.instructions ++ [(.jumpIf l, span)] }

/-- `Assembly::jump_if_not`. -/
def Assembly.jumpIfNot (a : Assembly) (l : Label) (span : Span) : Assembly :=
  { a with instructions := a.instructions ++ [(.jumpIfNot l, span)] }

/-- `Assembly::push`: a raw instruction; a `Call` contributes a
required-function span. -/
def Assembly.push (a : Assembly) (raw : Inst) (span : Span) : Assembly :=
  let a :=
    match raw with
    | .call hash _ =>
      { a with requiredFunctions :=
          alistPushEntry a.requiredFunctions hash [] (fun v => v ++ [span]) }
    | _ => a
  { a with instructions := a.instructions ++ [(.raw raw, span)] }

/-- `CompilationUnit` from `crates/stk/src/unit.rs`. -/
structure CompilationUnit where
  instructions : List Inst := []
  imports : List (String × Item) := []
  functions : List (Nat × UnitFnInfo) := []
  functionsRev : List (Nat × Nat) := []
  staticStrings : List String := []
  staticStringRev : List (Nat × Nat) := []
  staticObjectKeys : List (List String) := []
  staticObjectKeysRev : List (Nat × Nat) := []
  debug : List DebugInfo := []
  labelCount : Nat := 0
  requiredFunctions : List (Nat × List Span) := []
  deriving DecidableEq, Repr

namespace CompilationUnit

/-- `CompilationUnit::new_static_string`, parameterised by the hash function
`Hash::of` (the hashing module is outside the embedded sources). -/
def newStaticString (hashOf : String → Nat) (current : String) (u : CompilationUnit) :
    Except CompilationUnitError Nat × CompilationUnit :=
  let hash := hashOf current
  match alistFind? u.staticStringRev hash with
  | some existingSlot =>
    match u.staticStrings[existingSlot]? with
    | none => (.error (.staticStringMissing hash existingSlot), u)
    | some existing =>
      if existing = current then (.ok existingSlot, u)
      else (.error (.staticStringHashConflict hash current existing), u)
  | none =>
    let newSlot := u.staticStrings.length
    (.ok newSlot,
      { u with
        staticStrings := u.staticStrings ++ [current],
        staticStringRev := (alistInsert u.staticStringRev hash newSlot).1 })

/-- `CompilationUnit::new_import`: keyed by the last path component; the map
is updated before the conflict check, so on `ImportConflict` the map holds
the new path. -/
def newImport (path : Item) (u : CompilationUnit) :
    Except CompilationUnitError Unit × CompilationUnit :=
  match path.getLast? with
  | none => (.ok (), u)
  | some last =>
    let r := alistInsert u.imports last path
    match r.2 with
    | some old => (.error (.importConflict old), { u with imports := r.1 })
    | none => (.ok (), { u with imports := r.1 })

/-- `translate_offset` from `CompilationUnit::add_assembly`: signed distance
from the jump position to the label's definition offset. -/
def translateOffset (base : Nat) (label : Label) (labels : List (Label × Nat)) :
    Except CompilationUnitError Int :=
  match alistFind? labels label with
  | none => .error (.missingLabel label)
  | some offset => .ok ((offset : Int) - (base : Int))

/-- One lowering step shared by the three symbolic jumps: translate the label
and emit the raw jump with a `"label:<name>_<ident>"` debug comment. -/
def lowerJump (u : CompilationUnit) (labels : List (Label × Nat))
    (pos : Nat) (l : Label) (mk : Int → Inst) (span : Span) (atLabel : Option Label) :
    Except CompilationUnitError CompilationUnit :=
  match translateOffset pos l labels with
  | .error e => .error e
  | .ok offset =>
    .ok { u with
      instructions := u.instructions ++ [mk offset],
      debug := u.debug ++
        [{ span, comment := some ("label:" ++ l.display), label := atLabel }] }

/-- The loop body of `CompilationUnit::add_assembly`, walking the enumerated
assembly instructions; state mutated before an error is preserved. -/
def addAssemblyLoop (labels : List (Label × Nat)) (labelsRev : List (Nat × Label)) :
    Nat → List (AssemblyInst × Span) → CompilationUnit →
    Except CompilationUnitError Unit × CompilationUnit
  | _, [], u => (.ok (), u)
  | pos, (inst, span) :: rest, u =>
    let atLabel := alistFind? labelsRev pos
    match inst with
    | .jump l =>
      match lowerJump u labels pos l Inst.jump span atLabel with
      | .error e => (.error e, u)
      | .ok u₁ => addAssemblyLoop labels labelsRev (pos + 1) rest u₁
    | .jumpIf l =>
      match lowerJump u labels pos l Inst.jumpIf span atLabel with
      | .error e => (.error e, u)
      | .ok u₁ => addAssemblyLoop labels labelsRev (pos + 1) rest u₁
    | .jumpIfNot l =>
      match lowerJump u labels pos l Inst.jumpIfNot span atLabel with
      | .error e => (.error e, u)
      | .ok u₁ => addAssemblyLoop labels labelsRev (pos + 1) rest u₁
    | .raw raw =>
      addAssemblyLoop labels labelsRev (pos + 1) rest
        { u with
          instructions := u.instructions ++ [raw],
          debug := u.debug ++ [{ span, comment := none, label := atLabel }] }

/-- `CompilationUnit::add_assembly`. -/
def addAssembly (assembly : Assembly) (u : CompilationUnit) :
    Except CompilationUnitError Unit × CompilationUnit :=
  let u := { u with
    labelCount := assembly.labelCount,
    requiredFunctions := alistExtend u.requiredFunctions assembly.requiredFunctions }
  addAssemblyLoop assembly.labels assembly.labelsRev 0 assembly.instructions u

/-- `CompilationUnit::new_function`, parameterised by the hash function
`Hash::function` (the hashing module is outside the embedded sources).
As in the source, both function maps are updated before the conflict check,
so on `FunctionConflict` the new entries are in place and only the lowering
is skipped. -/
def newFunction (hashFunction : Item → Nat) (path : Item) (args : Nat)
    (assembly : Assembly) (u : CompilationUnit) :
    Except CompilationUnitError Unit × CompilationUnit :=
  let offset := u.instructions.length
  let hash := hashFunction path
  let u := { u with functionsRev := (alistInsert u.functionsRev offset hash).1 }
  let info : UnitFnInfo := ⟨offset, ⟨path, args⟩⟩
  let r := alistInsert u.functions hash info
  let u := { u with functions := r.1 }
  match r.2 with
  | some old => (.error (.functionConflict old.signature), u)
  | none => addAssembly assembly u

end CompilationUnit

/-- `LinkerError` from `crates/stk/src/unit.rs`. -/
inductive LinkerError where
  | missingFunction (hash : Nat) (spans : List Span)
  deriving DecidableEq, Repr

/-- `CompilationUnit::link`, with the context modelled as the set of hashes
its lookup resolves (the context module is outside the embedded sources).
The error collection is threaded explicitly; the boolean result is the final
collection's emptiness, as in the source. -/
def CompilationUnit.link (u : CompilationUnit) (context : Nat → Bool)
    (errors : List LinkerError) : Bool × List LinkerError :=
  let errors := u.requiredFunctions.foldl
    (fun es p =>
      if (alistFind? u.functions p.1).isNone && !context p.1 then
        es ++ [LinkerError.missingFunction p.1 p.2]
      else es)
    errors
  (errors.isEmpty, errors)

/-! ### The first-class function value (`crates/runestick/src/fn_ptr.rs`) -/

/-- `VmError` kinds reached from `fn_ptr.rs` (`VmErrorKind` is flattened into
the error as the source's `VmError::from` does). -/
inductive VmError where
  | argumentCountMismatch (expected : Nat) (actual : Nat)
  | stackUnderflow
  | other (code : Nat)
  deriving DecidableEq, Repr

/-- `UnitFnCall` as used by `fn_ptr.rs`: the exhaustive matches there have
exactly the `Immediate`, `Generator` and `Async` arms. -/
inductive UnitFnCall where
  | immediate
  | generator
  | async
  deriving DecidableEq, Repr

mutual
/-- The slice of the runestick `Value` that `fn_ptr.rs` constructs or
inspects: tuples (the closure environment), the two constructor results, and
the suspendable values wrapping a VM; everything else is abstracted. -/
inductive Value where
  | unit
  | integer (n : Int)
  | tuple (items : List Value)
  | typedTuple (hash : Nat) (items : List Value)
  | variantTuple (enumHash : Nat) (hash : Nat) (items : List Value)
  | generator (vm : Vm)
  | future (vm : Vm)
  | other (code : Nat)

/-- The VM state visible to `fn_ptr.rs`: the shared context and unit
(modelled as identifiers, two `Rc`s being "the same" when the identifiers are
equal), the instruction pointer, the value stack (top at the end) and the
call-frame list of saved `(ip, stack_bottom)` pairs. -/
inductive Vm where
  | mk (context : Nat) (unit : Nat) (ip : Nat) (stack : List Value)
      (frames : List (Nat × Nat))
end

namespace Vm

def context : Vm → Nat | .mk c _ _ _ _ => c
def unit : Vm → Nat | .mk _ u _ _ _ => u
def ip : Vm → Nat | .mk _ _ i _ _ => i
def stack : Vm → List Value | .mk _ _ _ s _ => s
def frames : Vm → List (Nat × Nat) | .mk _ _ _ _ f => f

/-- `Vm::new` followed by `set_ip` and loading the initial stack, as the
standalone call entry point does. -/
def fresh (context unit ip : Nat) (stack : List Value) : Vm :=
  .mk context unit ip stack []

/-- `Vm::is_same`: the call target shares the running VM's context and unit. -/
def isSame (vm : Vm) (context unit : Nat) : Bool :=
  vm.context = context ∧ vm.unit = unit

/-- Modelled from the spec: `Vm::push_call_frame` lives in the vm module,
which is outside the embedded sources; per §4.7 and the glossary it saves
`(ip, stack_bottom)` as a new call frame (the bottom leaving the `args`
topmost values to the callee) and jumps to the function's offset. -/
def pushCallFrame (vm : Vm) (offset : Nat) (args : Nat) : Except VmError Vm :=
  if args ≤ vm.stack.length then
    .ok (.mk vm.context vm.unit offset vm.stack
      ((vm.ip, vm.stack.length - args) :: vm.frames))
  else .error .stackUnderflow

/-- Modelled from the spec: `Stack::drain_stack_top(n)` lives in the stack
module, which is outside the embedded sources; per §4.7 it removes the `n`
topmost values and yields them in stack order. Returns (drained, remaining). -/
def drainStackTop (stack : List Value) (n : Nat) :
    Except VmError (List Value × List Value) :=
  if n ≤ stack.length then
    .ok (stack.drop (stack.length - n), stack.take (stack.length - n))
  else .error .stackUnderflow

/-- Modelled from the spec: `Stack::pop_sequence(n)` lives in the stack
module, which is outside the embedded sources; per §4.7 it pops the `n`
topmost values, yielding them in stack order. Returns (popped, remaining). -/
def popSequence (stack : List Value) (n : Nat) :
    Except VmError (List Value × List Value) :=
  drainStackTop stack n

/-- `Stack::pop`. -/
def popStack (stack : List Value) : Except VmError (Value × List Value) :=
  match stack.getLast? with
  | none => .error .stackUnderflow
  | some v => .ok (v, stack.dropLast)

def withStack (vm : Vm) (stack : List Value) : Vm :=
  .mk vm.context vm.unit vm.ip stack vm.frames

end Vm

/-- `StopReason` as produced by `fn_ptr.rs`: the nested-call suspension
`CallVm { call, vm }`; other variants are produced by the vm module only. -/
inductive StopReason where
  | callVm (call : UnitFnCall) (vm : Vm)

/-- `Inner` from `crates/runestick/src/fn_ptr.rs`: the five shapes of a
function pointer. A native handler is identified by a key into a handler
environment (function values cannot be stored positively in the inductive). -/
inductive Inner where
  | fnHandler (handler : Nat)
  | fnPtrOffset (context : Nat) (unit : Nat) (offset : Nat) (call : UnitFnCall) (args : Nat)
  | fnClosureOffset (context : Nat) (unit : Nat) (environment : List Value)
      (offset : Nat) (call : UnitFnCall) (args : Nat)
  | fnTuple (hash : Nat) (args : Nat)
  | fnVariantTuple (enumHash : Nat) (hash : Nat) (args : Nat)

/-- The declared argument count of each shape; the native-handler shape
declares none (`fn_ptr.rs` stores no count for it and performs no check). -/
def Inner.expectedArgs : Inner → Option Nat
  | .fnHandler _ => none
  | .fnPtrOffset _ _ _ _ args => some args
  | .fnClosureOffset _ _ _ _ _ args => some args
  | .fnTuple _ args => some args
  | .fnVariantTuple _ _ args => some args

/-- A handler environment: the meaning of each native handler, taking the
stack and the announced argument count to an updated stack. -/
abbrev HandlerEnv := Nat → List Value → Nat → Except VmError (List Value)

namespace Inner

/-- `FnPtr::check_args`. -/
def checkArgs (actual expected : Nat) : Except VmError Unit :=
  if actual ≠ expected then .error (.argumentCountMismatch expected actual)
  else .ok ()

/-- `FnPtr::call`, the standalone entry point, parameterised by the handler
environment and by `complete : Vm → _` (the dispatch loop `Vm::complete`
lives in the vm module, outside the embedded sources). The `T: FromValue`
conversion at the very end is omitted; the produced `Value` is returned. -/
def call (complete : Vm → Except VmError Value) (henv : HandlerEnv)
    (inner : Inner) (args : List Value) : Except VmError Value :=
  match inner with
  | .fnHandler h => do
    let stack ← henv h args args.length
    let r ← Vm.popStack stack
    pure r.1
  | .fnPtrOffset context unit offset callConv expected => do
    checkArgs args.length expected
    let vm := Vm.fresh context unit offset args
    match callConv with
    | .generator => pure (Value.generator vm)
    | .immediate => complete vm
    | .async => pure (Value.future vm)
  | .fnClosureOffset context unit environment offset callConv expected => do
    checkArgs args.length expected
    let vm := Vm.fresh context unit offset (args ++ [Value.tuple environment])
    match callConv with
    | .generator => pure (Value.generator vm)
    | .immediate => complete vm
    | .async => pure (Value.future vm)
  | .fnTuple hash expected => do
    checkArgs args.length expected
    pure (Value.typedTuple hash args)
  | .fnVariantTuple enumHash hash expected => do
    checkArgs args.length expected
    pure (Value.variantTuple enumHash hash args)

/-- `FnPtr::call_with_vm`, the in-VM entry point. -/
def callWithVm (henv : HandlerEnv) (inner : Inner) (vm : Vm) (args : Nat) :
    Except VmError (Option StopReason × Vm) :=
  match inner with
  | .fnHandler h => do
    let stack ← henv h vm.stack args
    pure (none, vm.withStack stack)
  | .fnPtrOffset context unit offset callConv expected => do
    checkArgs args expected
    if callConv = .immediate ∧ vm.isSame context unit then do
      let vm ← vm.pushCallFrame offset args
      pure (none, vm)
    else do
      let r ← Vm.drainStackTop vm.stack args
      let child := Vm.fresh context unit offset r.1
      pure (some (.callVm callConv child), vm.withStack r.2)
  | .fnClosureOffset context unit environment offset callConv expected => do
    checkArgs args expected
    if callConv = .immediate ∧ vm.isSame context unit then do
      let vm ← vm.pushCallFrame offset args
      pure (none, vm.withStack (vm.stack ++ [Value.tuple environment]))
    else do
      let r ← Vm.drainStackTop vm.stack args
      let child := Vm.fresh context unit offset (r.1 ++ [Value.tuple environment])
      pure (some (.callVm callConv child), vm.withStack r.2)
  | .fnTuple hash expected => do
    checkArgs args expected
    let r ← Vm.popSequence vm.stack args
    pure (none, vm.withStack (r.2 ++ [Value.typedTuple hash r.1]))
  | .fnVariantTuple enumHash hash expected => do
    checkArgs args expected
    let r ← Vm.popSequence vm.stack args
    pure (none, vm.withStack (r.2 ++ [Value.variantTuple enumHash hash r.1]))

end Inner

/-! ### The indexer (`crates/rune/src/index.rs`) -/

/-- The runestick `Call` calling-convention type as used by the indexer. -/
inductive Call where
  | stream
  | async
  | generator
  | immediate
  deriving DecidableEq, Repr

/-- `Indexer::call`: choose the calling convention from the presence of
`yield` and `async`. -/
def Indexer.call (generator : Bool) (isAsync : Bool) : Call :=
  if isAsync then
    if generator then Call.stream else Call.async
  else if generator then Call.generator
  else Call.immediate

/-- The `CompileError` kinds reached from the embedded indexer code, with
span payloads omitted. -/
inductive CompileError where
  | unsupportedWildcard
  | missingModule (item : Item)
  | unsupportedFileMod
  | modNotFound (path : List String)
  | modAlreadyLoaded (item : Item) (existing : Nat × Span)
  | modFileError (path : List String)
  deriving DecidableEq, Repr

/-- A filesystem path, as its list of components. `parent` drops the last
component; like Rust's `Path::parent` it is `None` on an empty path. -/
abbrev FsPath := List String

def FsPath.parent (p : FsPath) : Option FsPath :=
  match p with
  | [] => none
  | _ :: _ => some p.dropLast

/-- `with_extension("rn")` on a path whose final component is a module-name
identifier or `"mod"`: identifiers contain no `.`, so the extension is
appended. -/
def withExtensionRn (s : String) : String :=
  s ++ ".rn"

/-- `Indexer::handle_file_mod` for `mod <name>;`. The filesystem is modelled
by the list `fs` of existing files and the read predicate `readOk`
(`Source::from_path` may fail even on an existing file). `item` is the
indexer's current item with `name` pushed, `loaded` the map of loaded
modules. Returns the chosen path on success, threading the `loaded` map
(which, as in the source, is updated before the already-loaded check). -/
def handleFileMod (fs : List FsPath) (readOk : FsPath → Bool) (name : String)
    (sourcePath : Option FsPath) (item : Item)
    (loaded : List (Item × (Nat × Span))) (sourceId : Nat) (span : Span) :
    Except CompileError FsPath × List (Item × (Nat × Span)) :=
  match sourcePath with
  | none => (.error .unsupportedFileMod, loaded)
  | some path =>
    match path.parent with
    | none => (.error .unsupportedFileMod, loaded)
    | some parent =>
      let base := parent ++ [name]
      let candidates := [base ++ [withExtensionRn "mod"],
        parent ++ [withExtensionRn name]]
      match candidates.find? (fun c => c ∈ fs) with
      | none => (.error (.modNotFound base), loaded)
      | some found =>
        let r := alistInsert loaded item (sourceId, span)
        match r.2 with
        | some existing => (.error (.modAlreadyLoaded item existing), r.1)
        | none =>
          if readOk found then (.ok found, r.1)
          else (.error (.modFileError found), r.1)

/-- `ast::DeclUseComponent`. -/
inductive UseComponent where
  | wildcard
  | ident (name : String)
  deriving DecidableEq, Repr

/-- The loop of `Import::process` over all but the last component of
`rest`: a wildcard in a non-final position is unsupported, identifiers
extend the path. -/
def collectUseName (name : Item) : List UseComponent → Except CompileError Item
  | [] => .ok name
  | .wildcard :: _ => .error .unsupportedWildcard
  | .ident s :: rest => collectUseName (name ++ [s]) rest

/-- `Import::process`, with the context and the unit abstracted by their
prefix tests and child-component iterators, and registration modelled as the
list of item paths passed to `new_import`, in call order (context children
before unit children). The declaration is `use first::rest…;` where only
`rest` may contain wildcards. -/
def processImport (ctxContainsPrefix : Item → Bool) (ctxComponents : Item → List String)
    (unitContainsPrefix : Item → Bool) (unitComponents : Item → List String)
    (first : String) (rest : List UseComponent) :
    Except CompileError (List Item) := do
  let name ← collectUseName [first] rest.dropLast
  match rest.getLast? with
  | none => pure []
  | some .wildcard =>
    if ¬ (ctxContainsPrefix name = true) ∧ ¬ (unitContainsPrefix name = true) then
      throw (.missingModule name)
    else
      pure ((ctxComponents name ++ unitComponents name).map (fun c => name ++ [c]))
  | some (.ident s) => pure [name ++ [s]]

/-! ### Spec-side helpers used only in statements -/

/-- The label of a symbolic jump, if the assembly instruction is one. -/
def AssemblyInst.symbolicTarget : AssemblyInst → Option Label
  | .jump l => some l
  | .jumpIf l => some l
  | .jumpIfNot l => some l
  | .raw _ => none

/-- The raw jump corresponding to a symbolic jump, at the given signed
offset. -/
def AssemblyInst.correspondingRaw : AssemblyInst → Int → Option Inst
  | .jump _, off => some (.jump off)
  | .jumpIf _, off => some (.jumpIf off)
  | .jumpIfNot _, off => some (.jumpIfNot off)
  | .raw _, _ => none

/-- The identifier names of a wildcard-free component list, `none` when a
wildcard occurs. -/
def identNames? : List UseComponent → Option (List String)
  | [] => some []
  | .wildcard :: _ => none
  | .ident s :: rest => (identNames? rest).map (s :: ·)

/-! ### Association-list lemmas -/

theorem alistInsert_snd {K V : Type} [DecidableEq K] (m : List (K × V)) (k : K) (v : V) :
    (alistInsert m k v).2 = alistFind? m k := by
  induction m with
  | nil => simp [alistInsert, alistFind?]
  | cons hd tl ih =>
    obtain ⟨k₁, v₁⟩ := hd
    simp only [alistInsert, alistFind?]
    split <;> simp [ih]

theorem alistFind?_insert_self {K V : Type} [DecidableEq K] (m : List (K × V)) (k : K) (v : V) :
    alistFind? (alistInsert m k v).1 k = some v := by
  induction m with
  | nil => simp [alistInsert, alistFind?]
  | cons hd tl ih =>
    obtain ⟨k₁, v₁⟩ := hd
    simp only [alistInsert]
    split
    · simp [alistFind?]
    · simp [alistFind?, *]

theorem alistFind?_insert_ne {K V : Type} [DecidableEq K] (m : List (K × V)) (k : K) (v : V)
    (k' : K) (h : k' ≠ k) :
    alistFind? (alistInsert m k v).1 k' = alistFind? m k' := by
  have h' : ¬ k = k' := fun h₁ => h h₁.symm
  induction m with
  | nil => simp [alistInsert, alistFind?, h']
  | cons hd tl ih =>
    obtain ⟨k₁, v₁⟩ := hd
    simp only [alistInsert, alistFind?]
    split
    · next heq => subst heq; simp [alistFind?, h']
    · simp [alistFind?, ih]

/-! ### List lemmas -/

theorem list_getElem?_append_length {α : Type} (l : List α) (a : α) (t : List α) :
    (l ++ a :: t)[l.length]? = some a := by
  induction l with
  | nil => simp
  | cons hd tl ih => simpa using ih

theorem list_getElem?_append_left {α : Type} (l t : List α) (i : Nat) (h : i < l.length) :
    (l ++ t)[i]? = l[i]? := by
  induction l generalizing i with
  | nil => simp at h
  | cons hd tl ih =>
    cases i with
    | zero => simp
    | succ j => simpa using ih j (by simpa using h)

theorem foldl_if_filter_map {α β : Type} (pred : α → Bool) (g : α → β) :
    ∀ (l : List α) (es : List β),
      l.foldl (fun es p => if pred p then es ++ [g p] else es) es =
        es ++ (l.filter pred).map g := by
  intro l
  induction l with
  | nil => intro es; simp
  | cons hd tl ih =>
    intro es
    by_cases hc : pred hd = true
    · simp [List.foldl_cons, List.filter_cons, hc, ih]
    · simp [List.foldl_cons, List.filter_cons, hc, ih]

/-! ### C10: import re-declaration -/

/-- C10: declaring an import whose last path component equals an
already-registered short name always fails with `ImportConflict` — the
hypothesis on the existing binding allows it to be the identical path — and
after the error the imports map holds the new path, the previous mapping
having been replaced before the error is reported. -/
theorem newImport_conflict_after_replacement (u : CompilationUnit) (path : Item)
    (last : String) (hlast : path.getLast? = some last) (old : Item)
    (hold : alistFind? u.imports last = some old) :
    (CompilationUnit.newImport path u).1 =
      .error (.importConflict old) ∧
    alistFind? ((CompilationUnit.newImport path u).2).imports last = some path := by
  have h₂ : (alistInsert u.imports last path).2 = some old := by
    rw [alistInsert_snd, hold]
  simp [CompilationUnit.newImport, hlast, h₂, alistFind?_insert_self]

/-- Witness for C10 at a concrete identical re-declaration: registering
`use a::b` twice fails the second time with `ImportConflict` carrying the
identical existing path, and the map still binds `b` to `a::b`. -/
theorem newImport_conflict_after_replacement_witness :
    (CompilationUnit.newImport ["a", "b"]
        (CompilationUnit.newImport ["a", "b"] {}).2).1 =
      .error (.importConflict ["a", "b"]) ∧
    alistFind? ((CompilationUnit.newImport ["a", "b"]
        (CompilationUnit.newImport ["a", "b"] {}).2).2).imports "b" =
      some ["a", "b"] :=
  newImport_conflict_after_replacement
    (CompilationUnit.newImport ["a", "b"] {}).2 ["a", "b"] "b" rfl ["a", "b"] rfl

/-! ### C8: static-string interning -/

/-- C8: `new_static_string` is idempotent on content (a second call with the
same content returns the same slot and leaves the unit unchanged, so the
table does not grow), a fresh string is assigned the dense slot equal to the
current table length, and a hash collision with different interned content
fails with `StaticStringHashConflict`. -/
theorem newStaticString_spec (hashOf : String → Nat) (s : String) (u : CompilationUnit) :
    (∀ slot u₁, CompilationUnit.newStaticString hashOf s u = (.ok slot, u₁) →
      CompilationUnit.newStaticString hashOf s u₁ = (.ok slot, u₁)) ∧
    (alistFind? u.staticStringRev (hashOf s) = none →
      (CompilationUnit.newStaticString hashOf s u).1 = .ok u.staticStrings.length) ∧
    (∀ slot t, alistFind? u.staticStringRev (hashOf s) = some slot →
      u.staticStrings[slot]? = some t → t ≠ s →
      CompilationUnit.newStaticString hashOf s u =
        (.error (.staticStringHashConflict (hashOf s) s t), u)) := by
  refine ⟨?_, ?_, ?_⟩
  · intro slot u₁ h
    cases hfind : alistFind? u.staticStringRev (hashOf s) with
    | some sl =>
      cases hget : u.staticStrings[sl]? with
      | none => simp [CompilationUnit.newStaticString, hfind, hget] at h
      | some ex =>
        by_cases hex : ex = s
        · subst hex
          simp [CompilationUnit.newStaticString, hfind, hget] at h
          obtain ⟨h₁, h₂⟩ := h
          subst h₁
          subst h₂
          simp [CompilationUnit.newStaticString, hfind, hget]
        · simp [CompilationUnit.newStaticString, hfind, hget, hex] at h
    | none =>
      simp [CompilationUnit.newStaticString, hfind] at h
      obtain ⟨h₁, h₂⟩ := h
      subst h₁
      subst h₂
      simp [CompilationUnit.newStaticString, alistFind?_insert_self,
        list_getElem?_append_length]
  · intro hfind
    simp [CompilationUnit.newStaticString, hfind]
  · intro slot t hfind hget hne
    simp [CompilationUnit.newStaticString, hfind, hget, hne]

/-- Witness for C8 at concrete inputs: with a constant hash function, intern
`"a"` into the empty unit (fresh slot 0), intern it again (same slot, unit
unchanged), and interning `"b"` afterwards collides. -/
theorem newStaticString_spec_witness :
    (CompilationUnit.newStaticString (fun _ => 7) "a"
        (CompilationUnit.newStaticString (fun _ => 7) "a" {}).2) =
      (.ok 0, (CompilationUnit.newStaticString (fun _ => 7) "a" {}).2) ∧
    (CompilationUnit.newStaticString (fun _ => 7) "a" {}).1 = .ok 0 ∧
    (CompilationUnit.newStaticString (fun _ => 7) "b"
        (CompilationUnit.newStaticString (fun _ => 7) "a" {}).2) =
      (.error (.staticStringHashConflict 7 "b" "a"),
        (CompilationUnit.newStaticString (fun _ => 7) "a" {}).2) := by
  refine ⟨?_, ?_, ?_⟩
  · exact (newStaticString_spec (fun _ => 7) "a" {}).1 0 _ rfl
  · exact (newStaticString_spec (fun _ => 7) "a" {}).2.1 rfl
  · exact (newStaticString_spec (fun _ => 7) "b"
      (CompilationUnit.newStaticString (fun _ => 7) "a" {}).2).2.2 0 "a" rfl rfl
      (by decide)

/-! ### C3, C9: function registration -/

/-- C3 counterexample: registering the very same path with the very same
arity twice makes the second `new_function` fail with `FunctionConflict`
whose existing signature is identical to the new one — the conflict is not
restricted to a differing signature as the claim states. -/
theorem newFunction_identical_signature_conflict :
    (CompilationUnit.newFunction (fun _ => 0) ["foo"] 0 {} {}).1 = .ok () ∧
    (CompilationUnit.newFunction (fun _ => 0) ["foo"] 0 {}
        (CompilationUnit.newFunction (fun _ => 0) ["foo"] 0 {} {}).2).1 =
      .error (.functionConflict ⟨["foo"], 0⟩) := by
  constructor <;> rfl

/-- C3 (amended): `new_function` records the function's offset as the
current instructions length and hashes the path; it fails with
`FunctionConflict` exactly when a function with the same hash was already
registered — regardless of whether its signature differs — and otherwise it
lowers the assembly into the unit from the updated registration state. -/
theorem newFunction_spec (hashFunction : Item → Nat) (path : Item) (args : Nat)
    (assembly : Assembly) (u : CompilationUnit) :
    (∀ old, alistFind? u.functions (hashFunction path) = some old →
      (CompilationUnit.newFunction hashFunction path args assembly u).1 =
        .error (.functionConflict old.signature)) ∧
    (alistFind? u.functions (hashFunction path) = none →
      CompilationUnit.newFunction hashFunction path args assembly u =
        CompilationUnit.addAssembly assembly
          { u with
            functionsRev :=
              (alistInsert u.functionsRev u.instructions.length (hashFunction path)).1,
            functions := (alistInsert u.functions (hashFunction path)
              ⟨u.instructions.length, ⟨path, args⟩⟩).1 } ∧
      alistFind? ((alistInsert u.functions (hashFunction path)
          ⟨u.instructions.length, ⟨path, args⟩⟩).1) (hashFunction path) =
        some ⟨u.instructions.length, ⟨path, args⟩⟩) := by
  constructor
  · intro old hold
    simp [CompilationUnit.newFunction, alistInsert_snd, hold]
  · intro hnone
    refine ⟨?_, alistFind?_insert_self _ _ _⟩
    simp [CompilationUnit.newFunction, alistInsert_snd, hnone]

/-- Witness for the amended C3 at concrete inputs: the second registration
of `foo` conflicts, and a fresh registration succeeds through the lowering
path. -/
theorem newFunction_spec_witness :
    (CompilationUnit.newFunction (fun _ => 0) ["foo"] 0 {}
        (CompilationUnit.newFunction (fun _ => 0) ["foo"] 0 {} {}).2).1 =
      .error (.functionConflict ⟨["foo"], 0⟩) ∧
    (CompilationUnit.newFunction (fun _ => 0) ["foo"] 0 {} {}).1 = .ok () := by
  refine ⟨(newFunction_spec (fun _ => 0) ["foo"] 0 {} _).1 ⟨0, ⟨["foo"], 0⟩⟩ rfl, ?_⟩
  have h := ((newFunction_spec (fun _ => 0) ["foo"] 0 {} {}).2 rfl).1
  rw [h]
  rfl

/-- C9: when `new_function` returns `FunctionConflict`, the unit has already
been mutated — the reverse map holds the new offset-to-hash entry and the
function table maps the hash to the newly constructed entry — while no
instruction or debug entry was appended, the lowering being skipped. -/
theorem newFunction_conflict_mutation (hashFunction : Item → Nat) (path : Item)
    (args : Nat) (assembly : Assembly) (u : CompilationUnit) (old : UnitFnInfo)
    (hold : alistFind? u.functions (hashFunction path) = some old) :
    (CompilationUnit.newFunction hashFunction path args assembly u).1 =
      .error (.functionConflict old.signature) ∧
    alistFind?
        ((CompilationUnit.newFunction hashFunction path args assembly u).2).functionsRev
        u.instructions.length = some (hashFunction path) ∧
    alistFind?
        ((CompilationUnit.newFunction hashFunction path args assembly u).2).functions
        (hashFunction path) = some ⟨u.instructions.length, ⟨path, args⟩⟩ ∧
    ((CompilationUnit.newFunction hashFunction path args assembly u).2).instructions =
      u.instructions ∧
    ((CompilationUnit.newFunction hashFunction path args assembly u).2).debug = u.debug := by
  refine ⟨?_, ?_, ?_, ?_, ?_⟩ <;>
    simp [CompilationUnit.newFunction, alistInsert_snd, hold, alistFind?_insert_self]

/-- Witness for C9: re-registering `foo` over a unit that already holds one
lowered instruction errors while the registration maps were updated and the
instruction array kept its single element. -/
theorem newFunction_conflict_mutation_witness :
    (CompilationUnit.newFunction (fun _ => 0) ["foo"] 0 {}
        (CompilationUnit.newFunction (fun _ => 0) ["foo"] 0
          { instructions := [(.raw (.other 5), ⟨0, 1⟩)] } {}).2).1 =
      .error (.functionConflict ⟨["foo"], 0⟩) ∧
    alistFind? ((CompilationUnit.newFunction (fun _ => 0) ["foo"] 0 {}
        (CompilationUnit.newFunction (fun _ => 0) ["foo"] 0
          { instructions := [(.raw (.other 5), ⟨0, 1⟩)] } {}).2).2).functionsRev 1 =
      some 0 ∧
    ((CompilationUnit.newFunction (fun _ => 0) ["foo"] 0 {}
        (CompilationUnit.newFunction (fun _ => 0) ["foo"] 0
          { instructions := [(.raw (.other 5), ⟨0, 1⟩)] } {}).2).2).instructions =
      [.other 5] := by
  have h := newFunction_conflict_mutation (fun _ => 0) ["foo"] 0 {}
    (CompilationUnit.newFunction (fun _ => 0) ["foo"] 0
      { instructions := [(.raw (.other 5), ⟨0, 1⟩)] } {}).2 ⟨0, ⟨["foo"], 0⟩⟩ rfl
  exact ⟨h.1, h.2.1, h.2.2.2.1⟩

/-! ### C4: linking -/

/-- C4: `link` records a `MissingFunction` error, carrying the recorded
call-site spans, for exactly those required-function hashes resolvable in
neither the unit's function table nor the context, appended in the stable
order of the required-function collection, and it returns `true` exactly
when the final error collection is empty. Being a pure function of the
unit, the context and the incoming collection, it is deterministic. -/
theorem link_spec (u : CompilationUnit) (context : Nat → Bool)
    (errors : List LinkerError) :
    (u.link context errors).2 = errors ++
      (u.requiredFunctions.filter
        (fun p => (alistFind? u.functions p.1).isNone && !context p.1)).map
        (fun p => LinkerError.missingFunction p.1 p.2) ∧
    (u.link context errors).1 = (u.link context errors).2.isEmpty := by
  refine ⟨?_, rfl⟩
  exact foldl_if_filter_map _ _ u.requiredFunctions errors

/-! ### C1: argument-count checking -/

/-- C1: for every `FnPtr` shape that declares an expected argument count and
for both entry points — the standalone `call` and `call_with_vm` — supplying
a differing number of arguments fails with `ArgumentCountMismatch` carrying
the expected and actual counts; in particular a tuple constructor with 0
declared fields called on 2 arguments fails with
`ArgumentCountMismatch {expected := 0, actual := 2}`. (The native-handler
shape declares no count and is therefore covered vacuously, as in the
source.) -/
theorem fnPtr_argumentCountMismatch (complete : Vm → Except VmError Value)
    (henv : HandlerEnv) (f : Inner) (e : Nat) (he : f.expectedArgs = some e) :
    (∀ args : List Value, args.length ≠ e →
      Inner.call complete henv f args =
        .error (.argumentCountMismatch e args.length)) ∧
    (∀ (vm : Vm) (n : Nat), n ≠ e →
      Inner.callWithVm henv f vm n = .error (.argumentCountMismatch e n)) ∧
    (∀ (hash : Nat) (v₁ v₂ : Value),
      Inner.call complete henv (.fnTuple hash 0) [v₁, v₂] =
        .error (.argumentCountMismatch 0 2)) := by
  refine ⟨?_, ?_, ?_⟩
  · intro args hne
    cases f with
    | fnHandler h => simp [Inner.expectedArgs] at he
    | fnPtrOffset c u off conv ex =>
      obtain rfl : ex = e := by simpa [Inner.expectedArgs] using he
      simp [Inner.call, Inner.checkArgs, hne, Bind.bind, Except.bind]
    | fnClosureOffset c u env off conv ex =>
      obtain rfl : ex = e := by simpa [Inner.expectedArgs] using he
      simp [Inner.call, Inner.checkArgs, hne, Bind.bind, Except.bind]
    | fnTuple hash ex =>
      obtain rfl : ex = e := by simpa [Inner.expectedArgs] using he
      simp [Inner.call, Inner.checkArgs, hne, Bind.bind, Except.bind]
    | fnVariantTuple enumHash hash ex =>
      obtain rfl : ex = e := by simpa [Inner.expectedArgs] using he
      simp [Inner.call, Inner.checkArgs, hne, Bind.bind, Except.bind]
  · intro vm n hne
    cases f with
    | fnHandler h => simp [Inner.expectedArgs] at he
    | fnPtrOffset c u off conv ex =>
      obtain rfl : ex = e := by simpa [Inner.expectedArgs] using he
      simp [Inner.callWithVm, Inner.checkArgs, hne, Bind.bind, Except.bind]
    | fnClosureOffset c u env off conv ex =>
      obtain rfl : ex = e := by simpa [Inner.expectedArgs] using he
      simp [Inner.callWithVm, Inner.checkArgs, hne, Bind.bind, Except.bind]
    | fnTuple hash ex =>
      obtain rfl : ex = e := by simpa [Inner.expectedArgs] using he
      simp [Inner.callWithVm, Inner.checkArgs, hne, Bind.bind, Except.bind]
    | fnVariantTuple enumHash hash ex =>
      obtain rfl : ex = e := by simpa [Inner.expectedArgs] using he
      simp [Inner.callWithVm, Inner.checkArgs, hne, Bind.bind, Except.bind]
  · intro hash v₁ v₂
    simp [Inner.call, Inner.checkArgs]

/-- Witness for C1: the zero-field tuple constructor called on two values,
and an in-VM call of a unary function with three announced arguments. -/
theorem fnPtr_argumentCountMismatch_witness :
    Inner.call (fun _ => .ok Value.unit) (fun _ s _ => .ok s)
        (.fnTuple 9 0) [Value.unit, Value.unit] =
      .error (.argumentCountMismatch 0 2) ∧
    Inner.callWithVm (fun _ s _ => .ok s) (.fnPtrOffset 1 1 0 .immediate 1)
        (Vm.mk 1 1 0 [] []) 3 =
      .error (.argumentCountMismatch 1 3) := by
  have h₁ := fnPtr_argumentCountMismatch (fun _ => .ok Value.unit)
    (fun _ s _ => .ok s) (.fnTuple 9 0) 0 rfl
  have h₂ := fnPtr_argumentCountMismatch (fun _ => .ok Value.unit)
    (fun _ s _ => .ok s) (.fnPtrOffset 1 1 0 .immediate 1) 1 rfl
  exact ⟨h₁.2.2 9 Value.unit Value.unit, h₂.2.1 (Vm.mk 1 1 0 [] []) 3 (by decide)⟩

/-! ### C2: standalone offset calls per calling convention -/

/-- C2: a standalone `call` on an `Offset` or `ClosureOffset` shape with the
correct argument count builds a fresh VM sharing the stored context and
unit, with the instruction pointer at the stored offset and the arguments as
its stack (the closure's environment tuple pushed last); `Immediate` drives
that VM to completion, `Generator` returns a generator value wrapping it,
and `Async` returns a future wrapping it. -/
theorem fnPtr_offset_call_convention (complete : Vm → Except VmError Value)
    (henv : HandlerEnv) (c u off : Nat) (env : List Value)
    (args : List Value) (e : Nat) (h : args.length = e) :
    Inner.call complete henv (.fnPtrOffset c u off .immediate e) args =
      complete (Vm.mk c u off args []) ∧
    Inner.call complete henv (.fnPtrOffset c u off .generator e) args =
      .ok (Value.generator (Vm.mk c u off args [])) ∧
    Inner.call complete henv (.fnPtrOffset c u off .async e) args =
      .ok (Value.future (Vm.mk c u off args [])) ∧
    Inner.call complete henv (.fnClosureOffset c u env off .immediate e) args =
      complete (Vm.mk c u off (args ++ [Value.tuple env]) []) ∧
    Inner.call complete henv (.fnClosureOffset c u env off .generator e) args =
      .ok (Value.generator (Vm.mk c u off (args ++ [Value.tuple env]) [])) ∧
    Inner.call complete henv (.fnClosureOffset c u env off .async e) args =
      .ok (Value.future (Vm.mk c u off (args ++ [Value.tuple env]) [])) := by
  subst h
  refine ⟨?_, ?_, ?_, ?_, ?_, ?_⟩ <;>
    simp [Inner.call, Inner.checkArgs, Vm.fresh, Bind.bind, Except.bind, pure,
      Except.pure]

/-- Witness for C2: a unary generator-convention function yields a generator
wrapping the freshly built VM, and an immediate closure call drives the VM —
here a completion function reading the instruction pointer — to its value. -/
theorem fnPtr_offset_call_convention_witness :
    Inner.call (fun vm => .ok (Value.integer vm.ip)) (fun _ s _ => .ok s)
        (.fnPtrOffset 1 2 3 .generator 1) [Value.unit] =
      .ok (Value.generator (Vm.mk 1 2 3 [Value.unit] [])) ∧
    Inner.call (fun vm => .ok (Value.integer vm.ip)) (fun _ s _ => .ok s)
        (.fnClosureOffset 1 2 [Value.integer 7] 3 .immediate 1) [Value.unit] =
      .ok (Value.integer 3) := by
  have h := fnPtr_offset_call_convention (fun vm => .ok (Value.integer vm.ip))
    (fun _ s _ => .ok s) 1 2 3 [Value.integer 7] [Value.unit] 1 rfl
  refine ⟨h.2.1, ?_⟩
  rw [h.2.2.2.1]
  rfl

/-! ### C6: file modules -/

/-- C6: for `mod name;` in a source at path `p` with parent directory `par`,
the indexer searches `par/name/mod.rn` and then `par/name.rn` and uses the
first candidate that exists — so when both exist, `name/mod.rn` wins (part
(a) assumes nothing about the second candidate); when neither exists it
fails with `ModNotFound`, and finding a candidate under an already-loaded
item fails with `ModAlreadyLoaded`. -/
theorem handleFileMod_spec (fs : List FsPath) (readOk : FsPath → Bool)
    (name : String) (p : FsPath) (par : FsPath) (hp : FsPath.parent p = some par)
    (item : Item) (loaded : List (Item × (Nat × Span))) (sourceId : Nat) (span : Span) :
    (par ++ [name, withExtensionRn "mod"] ∈ fs →
      alistFind? loaded item = none →
      readOk (par ++ [name, withExtensionRn "mod"]) = true →
      handleFileMod fs readOk name (some p) item loaded sourceId span =
        (.ok (par ++ [name, withExtensionRn "mod"]),
          (alistInsert loaded item (sourceId, span)).1)) ∧
    (par ++ [name, withExtensionRn "mod"] ∉ fs →
      par ++ [withExtensionRn name] ∈ fs →
      alistFind? loaded item = none →
      readOk (par ++ [withExtensionRn name]) = true →
      handleFileMod fs readOk name (some p) item loaded sourceId span =
        (.ok (par ++ [withExtensionRn name]),
          (alistInsert loaded item (sourceId, span)).1)) ∧
    (par ++ [name, withExtensionRn "mod"] ∉ fs →
      par ++ [withExtensionRn name] ∉ fs →
      (handleFileMod fs readOk name (some p) item loaded sourceId span).1 =
        .error (.modNotFound (par ++ [name]))) ∧
    (∀ ex, (par ++ [name, withExtensionRn "mod"] ∈ fs ∨
        par ++ [withExtensionRn name] ∈ fs) →
      alistFind? loaded item = some ex →
      (handleFileMod fs readOk name (some p) item loaded sourceId span).1 =
        .error (.modAlreadyLoaded item ex)) := by
  refine ⟨?_, ?_, ?_, ?_⟩
  · intro h₁ hload hread
    have h₂ : (alistInsert loaded item (sourceId, span)).2 = none := by
      rw [alistInsert_snd, hload]
    simp [handleFileMod, hp, List.find?, h₁, h₂, hread]
  · intro h₁ h₂ hload hread
    have h₃ : (alistInsert loaded item (sourceId, span)).2 = none := by
      rw [alistInsert_snd, hload]
    simp [handleFileMod, hp, List.find?, h₁, h₂, h₃, hread]
  · intro h₁ h₂
    simp [handleFileMod, hp, List.find?, h₁, h₂]
  · intro ex hin hload
    have h₂ : (alistInsert loaded item (sourceId, span)).2 = some ex := by
      rw [alistInsert_snd, hload]
    by_cases h₁ : par ++ [name, withExtensionRn "mod"] ∈ fs
    · simp [handleFileMod, hp, List.find?, h₁, h₂]
    · have h₃ : par ++ [withExtensionRn name] ∈ fs := hin.resolve_left h₁
      simp [handleFileMod, hp, List.find?, h₁, h₂, h₃]

/-- Witness for C6: with both `m/mod.rn` and `m.rn` present next to
`main.rn`, the `m/mod.rn` candidate wins; with an empty filesystem the
module is not found; and re-loading under the loaded item errors. -/
theorem handleFileMod_spec_witness :
    handleFileMod [["m", "mod.rn"], ["m.rn"]] (fun _ => true) "m"
        (some ["main.rn"]) ["m"] [] 0 ⟨0, 6⟩ =
      (.ok ["m", "mod.rn"], [(["m"], (0, ⟨0, 6⟩))]) ∧
    (handleFileMod [] (fun _ => true) "m"
        (some ["main.rn"]) ["m"] [] 0 ⟨0, 6⟩).1 =
      .error (.modNotFound ["m"]) ∧
    (handleFileMod [["m", "mod.rn"], ["m.rn"]] (fun _ => true) "m"
        (some ["main.rn"]) ["m"] [(["m"], (0, ⟨0, 6⟩))] 0 ⟨0, 6⟩).1 =
      .error (.modAlreadyLoaded ["m"] (0, ⟨0, 6⟩)) := by
  refine ⟨?_, ?_, ?_⟩
  · exact (handleFileMod_spec [["m", "mod.rn"], ["m.rn"]] (fun _ => true) "m"
      ["main.rn"] [] rfl ["m"] [] 0 ⟨0, 6⟩).1 (by decide) rfl rfl
  · exact (handleFileMod_spec [] (fun _ => true) "m"
      ["main.rn"] [] rfl ["m"] [] 0 ⟨0, 6⟩).2.2.1 (by decide) (by decide)
  · exact (handleFileMod_spec [["m", "mod.rn"], ["m.rn"]] (fun _ => true) "m"
      ["main.rn"] [] rfl ["m"] [(["m"], (0, ⟨0, 6⟩))] 0 ⟨0, 6⟩).2.2.2 (0, ⟨0, 6⟩)
      (Or.inl (by decide)) rfl

/-! ### C7: use declarations -/

theorem collectUseName_of_wildcard (comps : List UseComponent)
    (h : identNames? comps = none) :
    ∀ name, collectUseName name comps = .error .unsupportedWildcard := by
  induction comps with
  | nil => simp [identNames?] at h
  | cons c rest ih =>
    intro name
    cases c with
    | wildcard => rfl
    | ident s =>
      simp only [identNames?] at h
      cases hr : identNames? rest with
      | none => exact ih hr (name ++ [s])
      | some v => rw [hr] at h; simp at h

theorem collectUseName_of_idents (comps : List UseComponent) (ss : List String)
    (h : identNames? comps = some ss) :
    ∀ name, collectUseName name comps = .ok (name ++ ss) := by
  induction comps generalizing ss with
  | nil =>
    intro name
    simp only [identNames?, Option.some_inj] at h
    simp [collectUseName, ← h]
  | cons c rest ih =>
    intro name
    cases c with
    | wildcard => simp [identNames?] at h
    | ident s =>
      simp only [identNames?] at h
      cases hr : identNames? rest with
      | none => rw [hr] at h; simp at h
      | some ss₁ =>
        rw [hr] at h
        simp at h
        rw [collectUseName, ih ss₁ hr (name ++ [s]), ← h]
        simp

/-- C7 counterexample: a non-wildcard `use` consisting of a single
component (`use a;`, empty `rest`) registers no import at all — not a
single import keyed by the last path component, as the claim states. -/
theorem processImport_single_component_counterexample :
    processImport (fun _ => false) (fun _ => []) (fun _ => false) (fun _ => [])
        "a" [] = .ok [] ∧
    ∀ name : Item,
      processImport (fun _ => false) (fun _ => []) (fun _ => false) (fun _ => [])
        "a" [] ≠ .ok [name] := by
  refine ⟨rfl, ?_⟩
  intro name h
  simp [processImport, collectUseName, Bind.bind, Except.bind, pure, Except.pure] at h

/-- C7 (amended): a `use` whose last component is a wildcard fails with
`MissingModule` when neither the context nor the unit contains the prefix
and otherwise registers one import per child component iterated from the
context and then from the unit; a wildcard in a non-final position fails
with `UnsupportedWildcard`; a non-wildcard `use` with at least one component
after the first registers a single import whose name ends in the last path
component; and a single-component `use` (empty `rest`) registers nothing. -/
theorem processImport_spec (ctxP : Item → Bool) (ctxC : Item → List String)
    (unitP : Item → Bool) (unitC : Item → List String) (first : String)
    (rest : List UseComponent) :
    (identNames? rest.dropLast = none →
      processImport ctxP ctxC unitP unitC first rest =
        .error .unsupportedWildcard) ∧
    (∀ ss, identNames? rest.dropLast = some ss →
      (rest.getLast? = some .wildcard → ctxP (first :: ss) = false →
        unitP (first :: ss) = false →
        processImport ctxP ctxC unitP unitC first rest =
          .error (.missingModule (first :: ss))) ∧
      (rest.getLast? = some .wildcard →
        (ctxP (first :: ss) = true ∨ unitP (first :: ss) = true) →
        processImport ctxP ctxC unitP unitC first rest =
          .ok ((ctxC (first :: ss) ++ unitC (first :: ss)).map
            (fun c => (first :: ss) ++ [c]))) ∧
      (∀ s, rest.getLast? = some (.ident s) →
        processImport ctxP ctxC unitP unitC first rest =
          .ok [(first :: ss) ++ [s]]) ∧
      (rest = [] →
        processImport ctxP ctxC unitP unitC first rest = .ok [])) := by
  constructor
  · intro h
    simp [processImport, collectUseName_of_wildcard rest.dropLast h [first],
      Bind.bind, Except.bind]
  · intro ss hss
    have hname := collectUseName_of_idents rest.dropLast ss hss [first]
    refine ⟨?_, ?_, ?_, ?_⟩
    · intro hlast hc hu
      simp [processImport, hname, hlast, hc, hu, Bind.bind, Except.bind, throw,
        throwThe, MonadExceptOf.throw]
    · intro hlast hin
      rcases hin with hc | hu
      · simp [processImport, hname, hlast, hc, Bind.bind, Except.bind, pure,
          Except.pure]
      · simp [processImport, hname, hlast, hu, Bind.bind, Except.bind, pure,
          Except.pure]
    · intro s hlast
      simp [processImport, hname, hlast, Bind.bind, Except.bind, pure, Except.pure]
    · intro hrest
      subst hrest
      simp [processImport, collectUseName, Bind.bind, Except.bind, pure,
        Except.pure]

/-- Witness for the amended C7 at concrete inputs: a non-final wildcard, a
final wildcard over an empty prefix, a final wildcard over a prefix known to
the context, and a plain two-component `use`. -/
theorem processImport_spec_witness :
    processImport (fun _ => false) (fun _ => []) (fun _ => false) (fun _ => [])
        "a" [.wildcard, .ident "x"] = .error .unsupportedWildcard ∧
    processImport (fun _ => false) (fun _ => []) (fun _ => false) (fun _ => [])
        "a" [.wildcard] = .error (.missingModule ["a"]) ∧
    processImport (fun _ => true) (fun _ => ["x", "y"]) (fun _ => false)
        (fun _ => ["z"]) "a" [.wildcard] =
      .ok [["a", "x"], ["a", "y"], ["a", "z"]] ∧
    processImport (fun _ => false) (fun _ => []) (fun _ => false) (fun _ => [])
        "a" [.ident "b"] = .ok [["a", "b"]] := by
  refine ⟨?_, ?_, ?_, ?_⟩
  · exact (processImport_spec (fun _ => false) (fun _ => []) (fun _ => false)
      (fun _ => []) "a" [.wildcard, .ident "x"]).1 rfl
  · exact (((processImport_spec (fun _ => false) (fun _ => []) (fun _ => false)
      (fun _ => []) "a" [.wildcard]).2 [] rfl).1) rfl rfl rfl
  · exact (((processImport_spec (fun _ => true) (fun _ => ["x", "y"])
      (fun _ => false) (fun _ => ["z"]) "a" [.wildcard]).2 [] rfl).2.1) rfl
      (Or.inl rfl)
  · exact (((processImport_spec (fun _ => false) (fun _ => []) (fun _ => false)
      (fun _ => []) "a" [.ident "b"]).2 [] rfl).2.2.1) "b" rfl

/-! ### C5: lowering symbolic jumps -/

theorem lowerJump_find_some (u : CompilationUnit) (L : List (Label × Nat)) (pos : Nat)
    (l : Label) (mk : Int → Inst) (span : Span) (atLabel : Option Label) (off : Nat)
    (hf : alistFind? L l = some off) :
    CompilationUnit.lowerJump u L pos l mk span atLabel =
      .ok { u with
        instructions := u.instructions ++ [mk ((off : Int) - (pos : Int))],
        debug := u.debug ++ [⟨span, some ("label:" ++ l.display), atLabel⟩] } := by
  simp [CompilationUnit.lowerJump, CompilationUnit.translateOffset, hf]

theorem lowerJump_find_none (u : CompilationUnit) (L : List (Label × Nat)) (pos : Nat)
    (l : Label) (mk : Int → Inst) (span : Span) (atLabel : Option Label)
    (hf : alistFind? L l = none) :
    CompilationUnit.lowerJump u L pos l mk span atLabel =
      .error (.missingLabel l) := by
  simp [CompilationUnit.lowerJump, CompilationUnit.translateOffset, hf]

theorem lowerJump_ok_inv (u : CompilationUnit) (L : List (Label × Nat)) (pos : Nat)
    (l : Label) (mk : Int → Inst) (span : Span) (atLabel : Option Label)
    (u₂ : CompilationUnit)
    (h : CompilationUnit.lowerJump u L pos l mk span atLabel = .ok u₂) :
    ∃ off : Nat, alistFind? L l = some off ∧
      u₂ = { u with
        instructions := u.instructions ++ [mk ((off : Int) - (pos : Int))],
        debug := u.debug ++ [⟨span, some ("label:" ++ l.display), atLabel⟩] } := by
  cases hf : alistFind? L l with
  | none => rw [lowerJump_find_none u L pos l mk span atLabel hf] at h; simp at h
  | some off =>
    rw [lowerJump_find_some u L pos l mk span atLabel off hf] at h
    exact ⟨off, rfl, (Except.ok.inj h).symm⟩

theorem addAssemblyLoop_extends (L : List (Label × Nat)) (R : List (Nat × Label)) :
    ∀ (insts : List (AssemblyInst × Span)) (pos : Nat) (u : CompilationUnit),
      ∃ t d,
        (CompilationUnit.addAssemblyLoop L R pos insts u).2.instructions =
          u.instructions ++ t ∧
        (CompilationUnit.addAssemblyLoop L R pos insts u).2.debug =
          u.debug ++ d := by
  intro insts
  induction insts with
  | nil =>
    intro pos u
    exact ⟨[], [], by simp [CompilationUnit.addAssemblyLoop],
      by simp [CompilationUnit.addAssemblyLoop]⟩
  | cons hd rest ih =>
    intro pos u
    obtain ⟨a₀, sp₀⟩ := hd
    cases a₀ with
    | raw r =>
      obtain ⟨t, d, ht, hd'⟩ := ih (pos + 1)
        { u with instructions := u.instructions ++ [r],
                 debug := u.debug ++ [⟨sp₀, none, alistFind? R pos⟩] }
      exact ⟨r :: t, ⟨sp₀, none, alistFind? R pos⟩ :: d,
        by simp only [CompilationUnit.addAssemblyLoop]; rw [ht]; simp,
        by simp only [CompilationUnit.addAssemblyLoop]; rw [hd']; simp⟩
    | jump l₀ =>
      cases hLJ : CompilationUnit.lowerJump u L pos l₀ Inst.jump sp₀
          (alistFind? R pos) with
      | error e =>
        exact ⟨[], [], by simp [CompilationUnit.addAssemblyLoop, hLJ],
          by simp [CompilationUnit.addAssemblyLoop, hLJ]⟩
      | ok u₂ =>
        obtain ⟨off, hf, rfl⟩ := lowerJump_ok_inv u L pos l₀ Inst.jump sp₀
          (alistFind? R pos) u₂ hLJ
        obtain ⟨t, d, ht, hd'⟩ := ih (pos + 1)
          { u with
            instructions := u.instructions ++ [Inst.jump ((off : Int) - (pos : Int))],
            debug := u.debug ++
              [⟨sp₀, some ("label:" ++ l₀.display), alistFind? R pos⟩] }
        exact ⟨Inst.jump ((off : Int) - (pos : Int)) :: t,
          ⟨sp₀, some ("label:" ++ l₀.display), alistFind? R pos⟩ :: d,
          by simp only [CompilationUnit.addAssemblyLoop, hLJ]; rw [ht]; simp,
          by simp only [CompilationUnit.addAssemblyLoop, hLJ]; rw [hd']; simp⟩
    | jumpIf l₀ =>
      cases hLJ : CompilationUnit.lowerJump u L pos l₀ Inst.jumpIf sp₀
          (alistFind? R pos) with
      | error e =>
        exact ⟨[], [], by simp [CompilationUnit.addAssemblyLoop, hLJ],
          by simp [CompilationUnit.addAssemblyLoop, hLJ]⟩
      | ok u₂ =>
        obtain ⟨off, hf, rfl⟩ := lowerJump_ok_inv u L pos l₀ Inst.jumpIf sp₀
          (alistFind? R pos) u₂ hLJ
        obtain ⟨t, d, ht, hd'⟩ := ih (pos + 1)
          { u with
            instructions := u.instructions ++ [Inst.jumpIf ((off : Int) - (pos : Int))],
            debug := u.debug ++
              [⟨sp₀, some ("label:" ++ l₀.display), alistFind? R pos⟩] }
        exact ⟨Inst.jumpIf ((off : Int) - (pos : Int)) :: t,
          ⟨sp₀, some ("label:" ++ l₀.display), alistFind? R pos⟩ :: d,
          by simp only [CompilationUnit.addAssemblyLoop, hLJ]; rw [ht]; simp,
          by simp only [CompilationUnit.addAssemblyLoop, hLJ]; rw [hd']; simp⟩
    | jumpIfNot l₀ =>
      cases hLJ : CompilationUnit.lowerJump u L pos l₀ Inst.jumpIfNot sp₀
          (alistFind? R pos) with
      | error e =>
        exact ⟨[], [], by simp [CompilationUnit.addAssemblyLoop, hLJ],
          by simp [CompilationUnit.addAssemblyLoop, hLJ]⟩
      | ok u₂ =>
        obtain ⟨off, hf, rfl⟩ := lowerJump_ok_inv u L pos l₀ Inst.jumpIfNot sp₀
          (alistFind? R pos) u₂ hLJ
        obtain ⟨t, d, ht, hd'⟩ := ih (pos + 1)
          { u with
            instructions := u.instructions ++
              [Inst.jumpIfNot ((off : Int) - (pos : Int))],
            debug := u.debug ++
              [⟨sp₀, some ("label:" ++ l₀.display), alistFind? R pos⟩] }
        exact ⟨Inst.jumpIfNot ((off : Int) - (pos : Int)) :: t,
          ⟨sp₀, some ("label:" ++ l₀.display), alistFind? R pos⟩ :: d,
          by simp only [CompilationUnit.addAssemblyLoop, hLJ]; rw [ht]; simp,
          by simp only [CompilationUnit.addAssemblyLoop, hLJ]; rw [hd']; simp⟩

theorem addAssemblyLoop_ok_translate (L : List (Label × Nat)) (R : List (Nat × Label)) :
    ∀ (insts : List (AssemblyInst × Span)) (pos : Nat) (u u₁ : CompilationUnit),
      CompilationUnit.addAssemblyLoop L R pos insts u = (.ok (), u₁) →
      ∀ (i : Nat) (a : AssemblyInst) (sp : Span) (l : Label) (off : Nat),
        insts[i]? = some (a, sp) → AssemblyInst.symbolicTarget a = some l →
        alistFind? L l = some off →
        u₁.instructions[u.instructions.length + i]? =
          AssemblyInst.correspondingRaw a ((off : Int) - ((pos + i : Nat) : Int)) ∧
        u₁.debug[u.debug.length + i]? =
          some ⟨sp, some ("label:" ++ l.display), alistFind? R (pos + i)⟩ := by
  intro insts
  induction insts with
  | nil =>
    intro pos u u₁ h i a sp l off hi hta hfl
    simp at hi
  | cons hd rest ih =>
    intro pos u u₁ h i a sp l off hi hta hfl
    obtain ⟨a₀, sp₀⟩ := hd
    cases i with
    | zero =>
      simp only [List.getElem?_cons_zero, Option.some.injEq, Prod.mk.injEq] at hi
      obtain ⟨rfl, rfl⟩ := hi
      cases a₀ with
      | raw r => simp [AssemblyInst.symbolicTarget] at hta
      | jump l₀ =>
        replace hta : l₀ = l := by
          simpa [AssemblyInst.symbolicTarget] using hta
        subst hta
        simp only [CompilationUnit.addAssemblyLoop,
          lowerJump_find_some u L pos l₀ Inst.jump sp₀ (alistFind? R pos) off hfl]
          at h
        obtain ⟨t, d, ht, hd'⟩ := addAssemblyLoop_extends L R rest (pos + 1)
          { u with
            instructions := u.instructions ++ [Inst.jump ((off : Int) - (pos : Int))],
            debug := u.debug ++
              [⟨sp₀, some ("label:" ++ l₀.display), alistFind? R pos⟩] }
        rw [h] at ht hd'
        have ht₁ : u₁.instructions =
            (u.instructions ++ [Inst.jump ((off : Int) - (pos : Int))]) ++ t := ht
        have hd₁ : u₁.debug =
            (u.debug ++ [⟨sp₀, some ("label:" ++ l₀.display), alistFind? R pos⟩]) ++ d :=
          hd'
        constructor
        · rw [ht₁, List.append_assoc]
          simpa [AssemblyInst.correspondingRaw] using
            list_getElem?_append_length u.instructions
              (Inst.jump ((off : Int) - (pos : Int))) t
        · rw [hd₁, List.append_assoc]
          simpa using
            list_getElem?_append_length u.debug
              ⟨sp₀, some ("label:" ++ l₀.display), alistFind? R pos⟩ d
      | jumpIf l₀ =>
        replace hta : l₀ = l := by
          simpa [AssemblyInst.symbolicTarget] using hta
        subst hta
        simp only [CompilationUnit.addAssemblyLoop,
          lowerJump_find_some u L pos l₀ Inst.jumpIf sp₀ (alistFind? R pos) off hfl]
          at h
        obtain ⟨t, d, ht, hd'⟩ := addAssemblyLoop_extends L R rest (pos + 1)
          { u with
            instructions := u.instructions ++ [Inst.jumpIf ((off : Int) - (pos : Int))],
            debug := u.debug ++
              [⟨sp₀, some ("label:" ++ l₀.display), alistFind? R pos⟩] }
        rw [h] at ht hd'
        have ht₁ : u₁.instructions =
            (u.instructions ++ [Inst.jumpIf ((off : Int) - (pos : Int))]) ++ t := ht
        have hd₁ : u₁.debug =
            (u.debug ++ [⟨sp₀, some ("label:" ++ l₀.display), alistFind? R pos⟩]) ++ d :=
          hd'
        constructor
        · rw [ht₁, List.append_assoc]
          simpa [AssemblyInst.correspondingRaw] using
            list_getElem?_append_length u.instructions
              (Inst.jumpIf ((off : Int) - (pos : Int))) t
        · rw [hd₁, List.append_assoc]
          simpa using
            list_getElem?_append_length u.debug
              ⟨sp₀, some ("label:" ++ l₀.display), alistFind? R pos⟩ d
      | jumpIfNot l₀ =>
        replace hta : l₀ = l := by
          simpa [AssemblyInst.symbolicTarget] using hta
        subst hta
        simp only [CompilationUnit.addAssemblyLoop,
          lowerJump_find_some u L pos l₀ Inst.jumpIfNot sp₀ (alistFind? R pos) off hfl]
          at h
        obtain ⟨t, d, ht, hd'⟩ := addAssemblyLoop_extends L R rest (pos + 1)
          { u with
            instructions := u.instructions ++ [Inst.jumpIfNot ((off : Int) - (pos : Int))],
            debug := u.debug ++
              [⟨sp₀, some ("label:" ++ l₀.display), alistFind? R pos⟩] }
        rw [h] at ht hd'
        have ht₁ : u₁.instructions =
            (u.instructions ++ [Inst.jumpIfNot ((off : Int) - (pos : Int))]) ++ t := ht
        have hd₁ : u₁.debug =
            (u.debug ++ [⟨sp₀, some ("label:" ++ l₀.display), alistFind? R pos⟩]) ++ d :=
          hd'
        constructor
        · rw [ht₁, List.append_assoc]
          simpa [AssemblyInst.correspondingRaw] using
            list_getElem?_append_length u.instructions
              (Inst.jumpIfNot ((off : Int) - (pos : Int))) t
        · rw [hd₁, List.append_assoc]
          simpa using
            list_getElem?_append_length u.debug
              ⟨sp₀, some ("label:" ++ l₀.display), alistFind? R pos⟩ d
    | succ j =>
      have hij : rest[j]? = some (a, sp) := by simpa using hi
      cases a₀ with
      | raw r =>
        simp only [CompilationUnit.addAssemblyLoop] at h
        have ihr := ih (pos + 1)
          { u with instructions := u.instructions ++ [r],
                   debug := u.debug ++ [⟨sp₀, none, alistFind? R pos⟩] }
          u₁ h j a sp l off hij hta hfl
        have e₁ : u.instructions.length + (j + 1) =
            (u.instructions ++ [r]).length + j := by
          simp [List.length_append]
          omega
        have e₂ : u.debug.length + (j + 1) =
            (u.debug ++ [(⟨sp₀, none, alistFind? R pos⟩ : DebugInfo)]).length + j := by
          simp [List.length_append]
          omega
        have e₃ : pos + (j + 1) = (pos + 1) + j := by omega
        rw [e₁, e₂, e₃]
        exact ihr
      | jump l₀ =>
        cases hLJ : CompilationUnit.lowerJump u L pos l₀ Inst.jump sp₀
            (alistFind? R pos) with
        | error e =>
          simp only [CompilationUnit.addAssemblyLoop, hLJ] at h
          simp at h
        | ok u₂ =>
          simp only [CompilationUnit.addAssemblyLoop, hLJ] at h
          obtain ⟨off₀, hf₀, rfl⟩ := lowerJump_ok_inv u L pos l₀ Inst.jump sp₀
            (alistFind? R pos) u₂ hLJ
          have ihr := ih (pos + 1)
            { u with
              instructions := u.instructions ++
                [Inst.jump ((off₀ : Int) - (pos : Int))],
              debug := u.debug ++
                [⟨sp₀, some ("label:" ++ l₀.display), alistFind? R pos⟩] }
            u₁ h j a sp l off hij hta hfl
          have e₁ : u.instructions.length + (j + 1) =
              (u.instructions ++ [Inst.jump ((off₀ : Int) - (pos : Int))]).length + j := by
            simp [List.length_append]
            omega
          have e₂ : u.debug.length + (j + 1) =
              (u.debug ++ [(⟨sp₀, some ("label:" ++ l₀.display), alistFind? R pos⟩ :
                DebugInfo)]).length + j := by
            simp [List.length_append]
            omega
          have e₃ : pos + (j + 1) = (pos + 1) + j := by omega
          rw [e₁, e₂, e₃]
          exact ihr
      | jumpIf l₀ =>
        cases hLJ : CompilationUnit.lowerJump u L pos l₀ Inst.jumpIf sp₀
            (alistFind? R pos) with
        | error e =>
          simp only [CompilationUnit.addAssemblyLoop, hLJ] at h
          simp at h
        | ok u₂ =>
          simp only [CompilationUnit.addAssemblyLoop, hLJ] at h
          obtain ⟨off₀, hf₀, rfl⟩ := lowerJump_ok_inv u L pos l₀ Inst.jumpIf sp₀
            (alistFind? R pos) u₂ hLJ
          have ihr := ih (pos + 1)
            { u with
              instructions := u.instructions ++
                [Inst.jumpIf ((off₀ : Int) - (pos : Int))],
              debug := u.debug ++
                [⟨sp₀, some ("label:" ++ l₀.display), alistFind? R pos⟩] }
            u₁ h j a sp l off hij hta hfl
          have e₁ : u.instructions.length + (j + 1) =
              (u.instructions ++
                [Inst.jumpIf ((off₀ : Int) - (pos : Int))]).length + j := by
            simp [List.length_append]
            omega
          have e₂ : u.debug.length + (j + 1) =
              (u.debug ++ [(⟨sp₀, some ("label:" ++ l₀.display), alistFind? R pos⟩ :
                DebugInfo)]).length + j := by
            simp [List.length_append]
            omega
          have e₃ : pos + (j + 1) = (pos + 1) + j := by omega
          rw [e₁, e₂, e₃]
          exact ihr
      | jumpIfNot l₀ =>
        cases hLJ : CompilationUnit.lowerJump u L pos l₀ Inst.jumpIfNot sp₀
            (alistFind? R pos) with
        | error e =>
          simp only [CompilationUnit.addAssemblyLoop, hLJ] at h
          simp at h
        | ok u₂ =>
          simp only [CompilationUnit.addAssemblyLoop, hLJ] at h
          obtain ⟨off₀, hf₀, rfl⟩ := lowerJump_ok_inv u L pos l₀ Inst.jumpIfNot sp₀
            (alistFind? R pos) u₂ hLJ
          have ihr := ih (pos + 1)
            { u with
              instructions := u.instructions ++
                [Inst.jumpIfNot ((off₀ : Int) - (pos : Int))],
              debug := u.debug ++
                [⟨sp₀, some ("label:" ++ l₀.display), alistFind? R pos⟩] }
            u₁ h j a sp l off hij hta hfl
          have e₁ : u.instructions.length + (j + 1) =
              (u.instructions ++
                [Inst.jumpIfNot ((off₀ : Int) - (pos : Int))]).length + j := by
            simp [List.length_append]
            omega
          have e₂ : u.debug.length + (j + 1) =
              (u.debug ++ [(⟨sp₀, some ("label:" ++ l₀.display), alistFind? R pos⟩ :
                DebugInfo)]).length + j := by
            simp [List.length_append]
            omega
          have e₃ : pos + (j + 1) = (pos + 1) + j := by omega
          rw [e₁, e₂, e₃]
          exact ihr

theorem addAssemblyLoop_missing (L : List (Label × Nat)) (R : List (Nat × Label)) :
    ∀ (insts : List (AssemblyInst × Span)) (pos : Nat) (u : CompilationUnit)
      (i : Nat) (a : AssemblyInst) (sp : Span) (l : Label),
      insts[i]? = some (a, sp) → AssemblyInst.symbolicTarget a = some l →
      alistFind? L l = none →
      (∀ j, j < i → ∀ (p : AssemblyInst × Span), insts[j]? = some p →
        ∀ l', AssemblyInst.symbolicTarget p.1 = some l' →
          (alistFind? L l').isSome) →
      (CompilationUnit.addAssemblyLoop L R pos insts u).1 =
        .error (.missingLabel l) := by
  intro insts
  induction insts with
  | nil => intro pos u i a sp l hi; simp at hi
  | cons hd rest ih =>
    intro pos u i a sp l hi hta hfl hearly
    obtain ⟨a₀, sp₀⟩ := hd
    cases i with
    | zero =>
      simp only [List.getElem?_cons_zero, Option.some.injEq, Prod.mk.injEq] at hi
      obtain ⟨rfl, rfl⟩ := hi
      cases a₀ with
      | raw r => simp [AssemblyInst.symbolicTarget] at hta
      | jump l₀ =>
        replace hta : l₀ = l := by
          simpa [AssemblyInst.symbolicTarget] using hta
        subst hta
        simp [CompilationUnit.addAssemblyLoop,
          lowerJump_find_none u L pos l₀ Inst.jump sp₀ (alistFind? R pos) hfl]
      | jumpIf l₀ =>
        replace hta : l₀ = l := by
          simpa [AssemblyInst.symbolicTarget] using hta
        subst hta
        simp [CompilationUnit.addAssemblyLoop,
          lowerJump_find_none u L pos l₀ Inst.jumpIf sp₀ (alistFind? R pos) hfl]
      | jumpIfNot l₀ =>
        replace hta : l₀ = l := by
          simpa [AssemblyInst.symbolicTarget] using hta
        subst hta
        simp [CompilationUnit.addAssemblyLoop,
          lowerJump_find_none u L pos l₀ Inst.jumpIfNot sp₀ (alistFind? R pos) hfl]
    | succ j =>
      have hij : rest[j]? = some (a, sp) := by simpa using hi
      have hearly' : ∀ j', j' < j → ∀ (p : AssemblyInst × Span), rest[j']? = some p →
          ∀ l', AssemblyInst.symbolicTarget p.1 = some l' →
            (alistFind? L l').isSome := by
        intro j' hj' p hp l' ht'
        exact hearly (j' + 1) (by omega) p (by simpa using hp) l' ht'
      cases a₀ with
      | raw r =>
        simp only [CompilationUnit.addAssemblyLoop]
        exact ih (pos + 1) _ j a sp l hij hta hfl hearly'
      | jump l₀ =>
        have hsome : (alistFind? L l₀).isSome :=
          hearly 0 (by omega) (.jump l₀, sp₀) (by simp) l₀
            (by simp [AssemblyInst.symbolicTarget])
        obtain ⟨off₀, hf₀⟩ := Option.isSome_iff_exists.mp hsome
        simp only [CompilationUnit.addAssemblyLoop,
          lowerJump_find_some u L pos l₀ Inst.jump sp₀ (alistFind? R pos) off₀ hf₀]
        exact ih (pos + 1) _ j a sp l hij hta hfl hearly'
      | jumpIf l₀ =>
        have hsome : (alistFind? L l₀).isSome :=
          hearly 0 (by omega) (.jumpIf l₀, sp₀) (by simp) l₀
            (by simp [AssemblyInst.symbolicTarget])
        obtain ⟨off₀, hf₀⟩ := Option.isSome_iff_exists.mp hsome
        simp only [CompilationUnit.addAssemblyLoop,
          lowerJump_find_some u L pos l₀ Inst.jumpIf sp₀ (alistFind? R pos) off₀ hf₀]
        exact ih (pos + 1) _ j a sp l hij hta hfl hearly'
      | jumpIfNot l₀ =>
        have hsome : (alistFind? L l₀).isSome :=
          hearly 0 (by omega) (.jumpIfNot l₀, sp₀) (by simp) l₀
            (by simp [AssemblyInst.symbolicTarget])
        obtain ⟨off₀, hf₀⟩ := Option.isSome_iff_exists.mp hsome
        simp only [CompilationUnit.addAssemblyLoop,
          lowerJump_find_some u L pos l₀ Inst.jumpIfNot sp₀ (alistFind? R pos) off₀ hf₀]
        exact ih (pos + 1) _ j a sp l hij hta hfl hearly'

/-- C5: during lowering, every symbolic jump at assembly position `i` whose
label is defined at position `off` is emitted, at the corresponding position
of the unit, as the corresponding raw jump with signed offset `off - i`,
together with a debug comment `"label:<name>_<id>"` (and the label applied
at that position, if any); a jump whose label was never defined — the first
such jump — makes the lowering fail with `MissingLabel`; and applying the
same label twice in one assembly fails with `DuplicateLabel`. -/
theorem assembly_lowering_spec :
    (∀ (assembly : Assembly) (u u₁ : CompilationUnit),
      CompilationUnit.addAssembly assembly u = (.ok (), u₁) →
      ∀ (i : Nat) (a : AssemblyInst) (sp : Span) (l : Label) (off : Nat),
        assembly.instructions[i]? = some (a, sp) →
        AssemblyInst.symbolicTarget a = some l →
        alistFind? assembly.labels l = some off →
        u₁.instructions[u.instructions.length + i]? =
          AssemblyInst.correspondingRaw a ((off : Int) - (i : Int)) ∧
        u₁.debug[u.debug.length + i]? =
          some ⟨sp, some ("label:" ++ l.display),
            alistFind? assembly.labelsRev i⟩) ∧
    (∀ (assembly : Assembly) (u : CompilationUnit) (i : Nat) (a : AssemblyInst)
        (sp : Span) (l : Label),
      assembly.instructions[i]? = some (a, sp) →
      AssemblyInst.symbolicTarget a = some l →
      alistFind? assembly.labels l = none →
      (∀ j, j < i → ∀ (p : AssemblyInst × Span),
        assembly.instructions[j]? = some p →
        ∀ l', AssemblyInst.symbolicTarget p.1 = some l' →
          (alistFind? assembly.labels l').isSome) →
      (CompilationUnit.addAssembly assembly u).1 = .error (.missingLabel l)) ∧
    (∀ (a : Assembly) (l : Label), alistFind? a.labels l = none →
      (Assembly.applyLabel a l).1 = .ok l ∧
      (Assembly.applyLabel (Assembly.applyLabel a l).2 l).1 =
        .error (.duplicateLabel l)) := by
  refine ⟨?_, ?_, ?_⟩
  · intro assembly u u₁ h i a sp l off hi hta hfl
    have key := addAssemblyLoop_ok_translate assembly.labels assembly.labelsRev
      assembly.instructions 0
      { u with
        labelCount := assembly.labelCount,
        requiredFunctions :=
          alistExtend u.requiredFunctions assembly.requiredFunctions }
      u₁ h i a sp l off hi hta hfl
    simpa using key
  · intro assembly u i a sp l hi hta hfl hearly
    exact addAssemblyLoop_missing assembly.labels assembly.labelsRev
      assembly.instructions 0
      { u with
        labelCount := assembly.labelCount,
        requiredFunctions :=
          alistExtend u.requiredFunctions assembly.requiredFunctions }
      i a sp l hi hta hfl hearly
  · intro a l hf
    have h₂ : (alistInsert a.labels l a.instructions.length).2 = none := by
      rw [alistInsert_snd, hf]
    have h₃ : alistFind? ((alistInsert a.labels l a.instructions.length).1) l =
        some a.instructions.length := alistFind?_insert_self _ _ _
    constructor
    · simp [Assembly.applyLabel, h₂]
    · simp [Assembly.applyLabel, h₂, alistInsert_snd, h₃]

/-- Witness for C5: an assembly holding one jump to a label applied at
position 1 lowers the jump at unit position 0 to `Jump {offset := 1}` with
comment `"label:end_0"`; a jump to an unapplied label fails with
`MissingLabel`; applying the same label twice fails with `DuplicateLabel`. -/
theorem assembly_lowering_spec_witness :
    ((CompilationUnit.addAssembly
        { labels := [(⟨"end", 0⟩, 1)], labelsRev := [(1, ⟨"end", 0⟩)],
          instructions := [(.jump ⟨"end", 0⟩, ⟨2, 3⟩)], labelCount := 1 }
        {}).2).instructions[0]? = some (.jump 1) ∧
    ((CompilationUnit.addAssembly
        { labels := [(⟨"end", 0⟩, 1)], labelsRev := [(1, ⟨"end", 0⟩)],
          instructions := [(.jump ⟨"end", 0⟩, ⟨2, 3⟩)], labelCount := 1 }
        {}).2).debug[0]? = some ⟨⟨2, 3⟩, some "label:end_0", none⟩ ∧
    (CompilationUnit.addAssembly
        { instructions := [(.jump ⟨"nope", 0⟩, ⟨2, 3⟩)] } {}).1 =
      .error (.missingLabel ⟨"nope", 0⟩) ∧
    (Assembly.applyLabel (Assembly.applyLabel {} ⟨"x", 0⟩).2 ⟨"x", 0⟩).1 =
      .error (.duplicateLabel ⟨"x", 0⟩) := by
  have h₁ := assembly_lowering_spec.1
    { labels := [(⟨"end", 0⟩, 1)], labelsRev := [(1, ⟨"end", 0⟩)],
      instructions := [(.jump ⟨"end", 0⟩, ⟨2, 3⟩)], labelCount := 1 }
    {} _ rfl 0 (.jump ⟨"end", 0⟩) ⟨2, 3⟩ ⟨"end", 0⟩ 1 rfl rfl rfl
  have h₂ := assembly_lowering_spec.2.1
    { instructions := [(.jump ⟨"nope", 0⟩, ⟨2, 3⟩)] } {} 0 (.jump ⟨"nope", 0⟩)
    ⟨2, 3⟩ ⟨"nope", 0⟩ rfl rfl rfl (by intro j hj; omega)
  have h₃ := assembly_lowering_spec.2.2 {} ⟨"x", 0⟩ rfl
  exact ⟨h₁.1, h₁.2, h₂, h₃.2⟩

end Rune
